import Mathlib

/-!
Shallow embedding of the event-notification scheduler of the ical-bot
repository: the occurrence expansion in src/calendar_utils.py
(the function get_events) and the check_upcoming_events polling loop in
src/bot.py (per-recipient delivery, the notified_events dedup map, the
per-tick prune, and the fail-safe clears).

Modelling conventions:
- timestamps are local-time seconds as Int (the code keeps tz-aware
  datetimes and converts everything to the local zone before use);
- Python datetime.isoformat is modelled by an explicit proleptic-Gregorian
  civil-date conversion of the day number plus a time-of-day part; the
  timezone offset suffix of an aware isoformat is omitted: it contains no
  underscore and lies beyond the 10-character date slice the code reads;
- the Python dict notified_events (user id to set of event-id strings) is
  an association list, the sets are duplicate-free lists grown by a
  membership-checked add;
- the Telegram send (bot.send_message) is an oracle send : Int -> String
  -> Bool telling, per (recipient, event id), whether the call returns
  normally (true) or raises (false); the loop records its visible steps
  as a trace of Action values.
-/

namespace ICalBot

/-- config.py: CHECK_INTERVAL, seconds between scheduler ticks (default 300). -/
def CHECK_INTERVAL : Nat := 300

/-- config.py: NOTIFICATION_TIME, the notification lead time in minutes
(default 15). -/
def NOTIFICATION_TIME : Int := 15

/-- Left-pad a number below 100 to two digits, as in an isoformat field. -/
def pad2 (n : Nat) : String :=
  if n < 10 then "0" ++ toString n else toString n

/-- Left-pad a year number to four digits, as in an isoformat year. -/
def pad4 (n : Nat) : String :=
  if n < 10 then "000" ++ toString n
  else if n < 100 then "00" ++ toString n
  else if n < 1000 then "0" ++ toString n
  else toString n

/-- Convert a day count since 1970-01-01 to a proleptic-Gregorian civil
date (year, month, day); the standard era/day-of-era computation. -/
def civilFromDays (z : Int) : Int × Nat × Nat :=
  let zz := z + 719468
  let era := Int.fdiv zz 146097
  let doe := (zz - era * 146097).toNat
  let yoe := (doe - doe / 1460 + doe / 36524 - doe / 146096) / 365
  let y := (yoe : Int) + era * 400
  let doy := doe - (365 * yoe + yoe / 4 - yoe / 100)
  let mp := (5 * doy + 2) / 153
  let d := doy - (153 * mp + 2) / 5 + 1
  let m := if mp < 10 then mp + 3 else mp - 9
  (if m ≤ 2 then y + 1 else y, m, d)

/-- Date part of datetime.isoformat: the first 10 characters, YYYY-MM-DD,
of the timestamp's civil date. -/
def dateStr (secs : Int) : String :=
  let c := civilFromDays (Int.fdiv secs 86400)
  pad4 c.1.toNat ++ "-" ++ pad2 c.2.1 ++ "-" ++ pad2 c.2.2

/-- Time-of-day part of datetime.isoformat, HH:MM:SS. -/
def timeStr (secs : Int) : String :=
  let s := (secs - 86400 * Int.fdiv secs 86400).toNat
  pad2 (s / 3600) ++ ":" ++ pad2 (s / 60 % 60) ++ ":" ++ pad2 (s % 60)

/-- datetime.isoformat of a local timestamp (offset suffix omitted, see
the module comment). -/
def isoformat (secs : Int) : String :=
  dateStr secs ++ "T" ++ timeStr secs

/-- One already-expanded calendar occurrence as handed to get_events:
dtstart plus the three optional text fields read via event.get. -/
structure VEvent where
  dtstart : Int
  summary : Option String
  description : Option String
  location : Option String
deriving DecidableEq

/-- The dict built by get_events for each occurrence: start plus the three
text fields with placeholders substituted. -/
structure FormattedEvent where
  start : Int
  summary : String
  description : String
  location : String
deriving DecidableEq

/-- calendar_utils.py get_events, lines 45-53: substitute the fixed
placeholder strings for missing fields and keep the start. -/
def formatEvent (v : VEvent) : FormattedEvent :=
  { start := v.dtstart
    summary := v.summary.getD "Без названия"
    description := v.description.getD "Без описания"
    location := v.location.getD "Без места" }

/-- Insert an event into a list sorted ascending by start. -/
def insertByStart (e : FormattedEvent) : List FormattedEvent → List FormattedEvent
  | [] => [e]
  | x :: xs => if e.start ≤ x.start then e :: x :: xs else x :: insertByStart e xs

/-- Stable ascending sort by start time, modelling
sorted(formatted_events, key=lambda x: x.start). -/
def sortByStart (l : List FormattedEvent) : List FormattedEvent :=
  l.foldr insertByStart []

/-- calendar_utils.py get_events: an absent calendar yields []; otherwise
the occurrences of the window [start_date, end_date) are formatted and
sorted ascending by start.  The recurrence expansion of
recurring_ical_events.of(calendar).between is modelled as a window filter
over the already-expanded occurrence list. -/
def get_events (calendar : Option (List VEvent)) (start_date end_date : Int) :
    List FormattedEvent :=
  match calendar with
  | none => []
  | some cal =>
    sortByStart ((cal.filter
      (fun v => decide (start_date ≤ v.dtstart ∧ v.dtstart < end_date))).map formatEvent)

/-- bot.py line 669: event_id = summary + underscore + isoformat(start). -/
def event_id (e : FormattedEvent) : String :=
  e.summary ++ "_" ++ isoformat e.start

/-- The global dict notified_events: user id to set of event-id strings. -/
abbrev NotifMap := List (Int × List String)

/-- Dict lookup: first entry with the given key. -/
def lookupSet : NotifMap → Int → Option (List String)
  | [], _ => none
  | p :: rest, u => if p.1 = u then some p.2 else lookupSet rest u

/-- Dict key-membership test: user_id in notified_events. -/
def hasKey (m : NotifMap) (u : Int) : Bool :=
  (lookupSet m u).isSome

/-- bot.py lines 662-663: if the user has no entry yet, bind it to an
empty set. -/
def ensureKey (m : NotifMap) (u : Int) : NotifMap :=
  if hasKey m u then m else m ++ [(u, [])]

/-- Dict update at an existing key: notified_events[user_id] = s. -/
def setKey : NotifMap → Int → List String → NotifMap
  | [], _, _ => []
  | p :: rest, u, s => if p.1 = u then (u, s) :: setKey rest u s else p :: setKey rest u s

/-- The set of event ids recorded for a user ([] when the key is absent). -/
def notifSet (m : NotifMap) (u : Int) : List String :=
  (lookupSet m u).getD []

/-- Python set add on the duplicate-free list representation. -/
def setAdd (s : List String) (x : String) : List String :=
  if x ∈ s then s else s ++ [x]

/-- Deduplicator query has(recipient, identity): the membership test of
bot.py line 670, event_id not in notified_events[user_id], negated. -/
def has (m : NotifMap) (u : Int) (eid : String) : Bool :=
  decide (eid ∈ notifSet m u)

/-- Deduplicator operation mark(recipient, identity): ensure the user key
exists and add the id to its set (bot.py line 683 with lines 662-663). -/
def mark (m : NotifMap) (u : Int) (eid : String) : NotifMap :=
  let m1 := ensureKey m u
  setKey m1 u (setAdd (notifSet m1 u) eid)

/-- Visible steps of one tick: a send that returned normally, a send that
raised, and a sleep of the given number of seconds. -/
inductive Action where
  | sendOk : Int → String → Action
  | sendFail : Int → String → Action
  | sleep : Nat → Action
deriving DecidableEq

/-- bot.py line 670 guard as the code computes it: time_diff =
(start - now)/60 minutes and 0 <= time_diff <= lead, together with the
dedup test; on integer seconds 0 <= d/60 <= lead is 0 <= d <= 60*lead. -/
def dueAndNew (now lead : Int) (s : List String) (e : FormattedEvent) : Bool :=
  decide (0 ≤ e.start - now) && decide (e.start - now ≤ 60 * lead) &&
    !(decide (event_id e ∈ s))

/-- The lead-window part of the guard as a proposition. -/
def dueProp (now lead : Int) (e : FormattedEvent) : Prop :=
  0 ≤ e.start - now ∧ e.start - now ≤ 60 * lead

instance (now lead : Int) (e : FormattedEvent) : Decidable (dueProp now lead e) := by
  unfold dueProp; infer_instance

/-- bot.py lines 665-686, the inner for-loop over events for one user:
thread the user's dedup set, emit a sendOk and record the id on a normal
send, emit a sendFail and a one-second sleep on a raising send. -/
def processEvents (send : Int → String → Bool) (now lead : Int) (u : Int) :
    List String → List FormattedEvent → List String × List Action
  | s, [] => (s, [])
  | s, e :: rest =>
    if dueAndNew now lead s e then
      if send u (event_id e) then
        let r := processEvents send now lead u (setAdd s (event_id e)) rest
        (r.1, Action.sendOk u (event_id e) :: r.2)
      else
        let r := processEvents send now lead u s rest
        (r.1, Action.sendFail u (event_id e) :: Action.sleep 1 :: r.2)
    else
      processEvents send now lead u s rest

/-- bot.py lines 659-686, the outer for-loop over subscribed users. -/
def notifyAll (send : Int → String → Bool) (now lead : Int)
    (events : List FormattedEvent) : List Int → NotifMap → NotifMap × List Action
  | [], m => (m, [])
  | u :: rest, m =>
    let m1 := ensureKey m u
    let r := processEvents send now lead u (notifSet m1 u) events
    let r2 := notifyAll send now lead events rest (setKey m1 u r.1)
    (r2.1, r.2 ++ r2.2)

/-- Python str.split with a one-character separator, on character lists
(structural, so that the kernel can evaluate it). -/
def splitOnChar (c : Char) : List Char → List (List Char)
  | [] => [[]]
  | a :: rest =>
    match splitOnChar c rest with
    | [] => []
    | h :: t => if a = c then [] :: h :: t else (a :: h) :: t

/-- bot.py line 691: event_id.split(underscore)[1], totalised with an
empty default (ids built by event_id always contain an underscore). -/
def dateField (eid : String) : String :=
  String.mk ((splitOnChar (Char.ofNat 95) eid.data).getD 1 [])

/-- Python str.startswith on the structural representation. -/
def strStartsWith (s p : String) : Bool :=
  p.data.isPrefixOf s.data

/-- bot.py lines 690-691: keep the ids whose extracted date field does not
start with the 10-character date of now minus one day. -/
def pruneSet (cutoff : String) (s : List String) : List String :=
  s.filter (fun eid => !(strStartsWith (dateField eid) cutoff))

/-- bot.py lines 689-691: the per-tick prune, rebinding every user key to
its filtered set. -/
def prune (now : Int) (m : NotifMap) : NotifMap :=
  m.map (fun p => (p.1, pruneSet (dateStr (now - 86400)) p.2))

/-- Outcome of the calendar lookup and fetch at the top of a tick
(bot.py lines 636-649). -/
inductive FetchResult where
  | noCalendar
  | fetchFailed
  | ok : List VEvent → FetchResult
deriving DecidableEq

/-- One scheduler tick (bot.py lines 630-697): on a missing calendar or a
failed fetch clear the whole dedup map and sleep; otherwise fetch the
window [now, now + 1 hour), run the delivery loops, prune, and sleep. -/
def tick (send : Int → String → Bool) (now lead : Int) (users : List Int)
    (fr : FetchResult) (m : NotifMap) : NotifMap × List Action :=
  match fr with
  | FetchResult.noCalendar => ([], [Action.sleep CHECK_INTERVAL])
  | FetchResult.fetchFailed => ([], [Action.sleep CHECK_INTERVAL])
  | FetchResult.ok cal =>
    let events := get_events (some cal) now (now + 3600)
    let r := notifyAll send now lead events users m
    (prune now r.1, r.2 ++ [Action.sleep CHECK_INTERVAL])

/-- Delivery was attempted for the pair in the trace: a send was issued,
whether it returned normally or raised. -/
def attempted (tr : List Action) (u : Int) (eid : String) : Prop :=
  Action.sendOk u eid ∈ tr ∨ Action.sendFail u eid ∈ tr

instance (tr : List Action) (u : Int) (eid : String) : Decidable (attempted tr u eid) := by
  unfold attempted; infer_instance

/-- Is the action a failing send. -/
def isFail : Action → Bool
  | Action.sendFail _ _ => true
  | _ => false

/-- Does the trace begin with the one-second backoff sleep. -/
def startsWithSleep1 : List Action → Bool
  | Action.sleep n :: _ => decide (n = 1)
  | _ => false

/-- Every failing send in the trace is immediately followed by the
one-second backoff sleep of bot.py line 686. -/
def failsBackoff : List Action → Bool
  | [] => true
  | a :: rest => (!(isFail a) || startsWithSleep1 rest) && failsBackoff rest

/-- The trace does not end on a failing send (used to chain failsBackoff
across trace concatenation). -/
def lastNotFail : List Action → Bool
  | [] => true
  | [a] => !(isFail a)
  | _ :: rest => lastNotFail rest

/-- Exceptions a tick body can raise, all caught by the except clause of
bot.py lines 693-694 (fetch errors and parse errors are already absorbed
inside fetch_calendar; delivery errors inside the inner try). -/
inductive TickError where
  | fetchError
  | parseError
  | deliveryError
  | otherError
deriving DecidableEq

/-- How one pass of the while-True body ended: normally with the new map,
or with an exception raised somewhere in the body, the map as mutated so
far. -/
inductive TickOutcome where
  | normal : NotifMap → TickOutcome
  | raised : TickError → NotifMap → TickOutcome
deriving DecidableEq

/-- What the loop does next after one pass of the body. -/
inductive StepResult where
  | next : NotifMap → Nat → StepResult
  | stopped
deriving DecidableEq

/-- Control flow of the while-True loop of check_upcoming_events: an
external cancellation (a BaseException such as CancelledError, not caught
by except Exception) stops the task; any caught per-tick outcome, normal
or raised, is followed by the CHECK_INTERVAL sleep and another pass.  The
returned Bool tells whether the error branch logged an exception. -/
def loopStep (cancelled : Bool) (o : TickOutcome) : StepResult × Bool :=
  if cancelled then (StepResult.stopped, false)
  else
    match o with
    | TickOutcome.normal m => (StepResult.next m CHECK_INTERVAL, false)
    | TickOutcome.raised _ m => (StepResult.next m CHECK_INTERVAL, true)

/-! Concrete inputs used by the witnesses below. -/

/-- Reference instant 2024-01-01 10:00:00 local time, in seconds. -/
def t0 : Int := 1704103200

/-- A four-occurrence calendar around t0: 10 minutes before it and 5, 20
and 90 minutes after it. -/
def calEx : List VEvent :=
  [ ⟨t0 - 600, some "A", none, none⟩
  , ⟨t0 + 300, some "B", none, none⟩
  , ⟨t0 + 1200, some "C", none, none⟩
  , ⟨t0 + 5400, some "D", none, none⟩ ]

/-- The event id of the occurrence 5 minutes after t0. -/
def idB : String := "B_2024-01-01T10:05:00"

/-- A delivery oracle that always returns normally. -/
def sendAll : Int → String → Bool := fun _ _ => true

/-- A delivery oracle that raises exactly for recipient 1. -/
def sendNotTo1 : Int → String → Bool := fun u _ => decide (u ≠ 1)

/-! Basic lemmas about the set and map representations. -/

lemma mem_setAdd {s : List String} {x y : String} :
    x ∈ setAdd s y ↔ x = y ∨ x ∈ s := by
  unfold setAdd
  by_cases h : y ∈ s
  · simp only [h, if_true]
    constructor
    · exact Or.inr
    · rintro (rfl | hx)
      · exact h
      · exact hx
  · simp only [h, if_false, List.mem_append, List.mem_singleton]
    tauto

lemma subset_setAdd {s : List String} {x y : String} (h : x ∈ s) : x ∈ setAdd s y :=
  mem_setAdd.2 (Or.inr h)

lemma mem_insertByStart {e a : FormattedEvent} {l : List FormattedEvent} :
    a ∈ insertByStart e l ↔ a = e ∨ a ∈ l := by
  induction l with
  | nil => simp [insertByStart]
  | cons x xs ih =>
    unfold insertByStart
    by_cases h : e.start ≤ x.start
    · simp [h, ih]
    · simp [h, ih]
      tauto

lemma mem_sortByStart {a : FormattedEvent} {l : List FormattedEvent} :
    a ∈ sortByStart l ↔ a ∈ l := by
  induction l with
  | nil => simp [sortByStart]
  | cons x xs ih =>
    show a ∈ insertByStart x (sortByStart xs) ↔ _
    rw [mem_insertByStart]
    simp [ih]

lemma mem_get_events {cal : List VEvent} {s t : Int} {e : FormattedEvent} :
    e ∈ get_events (some cal) s t ↔
      ∃ v ∈ cal, (s ≤ v.dtstart ∧ v.dtstart < t) ∧ formatEvent v = e := by
  unfold get_events
  rw [mem_sortByStart]
  simp [List.mem_filter]
  constructor
  · rintro ⟨v, ⟨hv, hw⟩, rfl⟩
    exact ⟨v, hv, hw, rfl⟩
  · rintro ⟨v, hv, hw, rfl⟩
    exact ⟨v, ⟨hv, hw⟩, rfl⟩

lemma dueAndNew_eq_true {now lead : Int} {s : List String} {e : FormattedEvent} :
    dueAndNew now lead s e = true ↔ dueProp now lead e ∧ event_id e ∉ s := by
  simp [dueAndNew, dueProp, and_assoc]

/-! Lemmas about the association-list dict. -/

lemma lookupSet_append_none {m1 m2 : NotifMap} {u : Int}
    (h : lookupSet m1 u = none) : lookupSet (m1 ++ m2) u = lookupSet m2 u := by
  induction m1 with
  | nil => simp
  | cons p rest ih =>
    by_cases hp : p.1 = u
    · simp [lookupSet, hp] at h
    · simp only [lookupSet, hp, if_false] at h
      simp only [List.cons_append, lookupSet, hp, if_false]
      exact ih h

lemma lookupSet_ensureKey_self {m : NotifMap} {u : Int} :
    lookupSet (ensureKey m u) u = some (notifSet m u) := by
  unfold ensureKey hasKey notifSet
  cases h : lookupSet m u with
  | none =>
    simp only [h, Option.isSome_none, Bool.false_eq_true, if_false]
    rw [lookupSet_append_none h]
    simp [lookupSet]
  | some s => simp [h]

lemma lookupSet_append_some {m1 m2 : NotifMap} {u : Int} {s : List String}
    (h : lookupSet m1 u = some s) : lookupSet (m1 ++ m2) u = some s := by
  induction m1 with
  | nil => simp [lookupSet] at h
  | cons p rest ih =>
    by_cases hp : p.1 = u
    · simp only [lookupSet, hp, if_true] at h
      simp [lookupSet, hp, h]
    · simp only [lookupSet, hp, if_false] at h
      simp only [List.cons_append, lookupSet, hp, if_false]
      exact ih h

lemma lookupSet_ensureKey_ne {m : NotifMap} {u v : Int} (h : v ≠ u) :
    lookupSet (ensureKey m v) u = lookupSet m u := by
  unfold ensureKey
  by_cases hk : hasKey m v
  · simp [hk]
  · simp only [hk, Bool.false_eq_true, if_false]
    cases hl : lookupSet m u with
    | none =>
      rw [lookupSet_append_none hl]
      simp [lookupSet, h]
    | some s => exact lookupSet_append_some hl

lemma lookupSet_setKey_self {m : NotifMap} {u : Int} {s : List String}
    (h : hasKey m u = true) : lookupSet (setKey m u s) u = some s := by
  induction m with
  | nil => simp [hasKey, lookupSet] at h
  | cons p rest ih =>
    by_cases hp : p.1 = u
    · simp [setKey, hp, lookupSet]
    · simp only [setKey, hp, if_false]
      simp only [lookupSet, hp, if_false]
      exact ih (by simpa [hasKey, lookupSet, hp] using h)

lemma lookupSet_setKey_ne {m : NotifMap} {u v : Int} {s : List String} (h : v ≠ u) :
    lookupSet (setKey m v s) u = lookupSet m u := by
  induction m with
  | nil => simp [setKey]
  | cons p rest ih =>
    by_cases hp : p.1 = v
    · have hpu : ¬(p.1 = u) := by rw [hp]; exact h
      simp only [setKey, hp, if_true]
      simp only [lookupSet, h, hpu, if_false]
      exact ih
    · simp only [setKey, hp, if_false]
      by_cases hq : p.1 = u
      · simp [lookupSet, hq]
      · simp only [lookupSet, hq, if_false]
        exact ih

lemma hasKey_ensureKey {m : NotifMap} {u : Int} :
    hasKey (ensureKey m u) u = true := by
  unfold hasKey
  rw [lookupSet_ensureKey_self]
  rfl

lemma notifSet_ensureKey_self {m : NotifMap} {u : Int} :
    notifSet (ensureKey m u) u = notifSet m u := by
  unfold notifSet
  rw [lookupSet_ensureKey_self]
  rfl

lemma notifSet_step_self {m : NotifMap} {u : Int} {s : List String} :
    notifSet (setKey (ensureKey m u) u s) u = s := by
  unfold notifSet
  rw [lookupSet_setKey_self hasKey_ensureKey]
  rfl

lemma notifSet_step_ne {m : NotifMap} {u v : Int} {s : List String} (h : v ≠ u) :
    notifSet (setKey (ensureKey m v) v s) u = notifSet m u := by
  unfold notifSet
  rw [lookupSet_setKey_ne h, lookupSet_ensureKey_ne h]

/-! Lemmas about the inner per-user delivery loop. -/

lemma processEvents_sendOk_user {send : Int → String → Bool} {now lead : Int}
    {u v : Int} {s : List String} {evs : List FormattedEvent} {x : String}
    (h : Action.sendOk v x ∈ (processEvents send now lead u s evs).2) : v = u := by
  induction evs generalizing s with
  | nil => simp [processEvents] at h
  | cons e rest ih =>
    by_cases hc : dueAndNew now lead s e
    · by_cases hs : send u (event_id e)
      · simp only [processEvents, hc, hs, if_true, List.mem_cons] at h
        rcases h with h | h
        · exact (Action.sendOk.injEq _ _ _ _ ▸ h).1
        · exact ih h
      · simp only [processEvents, hc, if_true, hs, Bool.false_eq_true, if_false,
          List.mem_cons] at h
        rcases h with h | h | h
        · cases h
        · cases h
        · exact ih h
    · simp only [processEvents, hc, Bool.false_eq_true, if_false] at h
      exact ih h

lemma processEvents_sendFail_user {send : Int → String → Bool} {now lead : Int}
    {u v : Int} {s : List String} {evs : List FormattedEvent} {x : String}
    (h : Action.sendFail v x ∈ (processEvents send now lead u s evs).2) : v = u := by
  induction evs generalizing s with
  | nil => simp [processEvents] at h
  | cons e rest ih =>
    by_cases hc : dueAndNew now lead s e
    · by_cases hs : send u (event_id e)
      · simp only [processEvents, hc, hs, if_true, List.mem_cons] at h
        rcases h with h | h
        · cases h
        · exact ih h
      · simp only [processEvents, hc, if_true, hs, Bool.false_eq_true, if_false,
          List.mem_cons] at h
        rcases h with h | h | h
        · exact (Action.sendFail.injEq _ _ _ _ ▸ h).1
        · cases h
        · exact ih h
    · simp only [processEvents, hc, Bool.false_eq_true, if_false] at h
      exact ih h

lemma processEvents_mem_set {send : Int → String → Bool} {now lead : Int}
    {u : Int} {s : List String} {evs : List FormattedEvent} {x : String} :
    x ∈ (processEvents send now lead u s evs).1 ↔
      x ∈ s ∨ Action.sendOk u x ∈ (processEvents send now lead u s evs).2 := by
  induction evs generalizing s with
  | nil => simp [processEvents]
  | cons e rest ih =>
    by_cases hc : dueAndNew now lead s e
    · by_cases hs : send u (event_id e)
      · simp only [processEvents, hc, hs, if_true, List.mem_cons]
        rw [ih]
        rw [mem_setAdd]
        constructor
        · rintro ((rfl | hx) | hx)
          · exact Or.inr (Or.inl rfl)
          · exact Or.inl hx
          · exact Or.inr (Or.inr hx)
        · rintro (hx | hx | hx)
          · exact Or.inl (Or.inr hx)
          · rw [Action.sendOk.injEq] at hx
            exact Or.inl (Or.inl hx.2)
          · exact Or.inr hx
      · simp only [processEvents, hc, if_true, hs, Bool.false_eq_true, if_false,
          List.mem_cons]
        rw [ih]
        constructor
        · rintro (hx | hx)
          · exact Or.inl hx
          · exact Or.inr (Or.inr (Or.inr hx))
        · rintro (hx | hx | hx | hx)
          · exact Or.inl hx
          · cases hx
          · cases hx
          · exact Or.inr hx
    · simp only [processEvents, hc, Bool.false_eq_true, if_false]
      exact ih

lemma processEvents_set_mono {send : Int → String → Bool} {now lead : Int}
    {u : Int} {s : List String} {evs : List FormattedEvent} {x : String}
    (h : x ∈ s) : x ∈ (processEvents send now lead u s evs).1 :=
  processEvents_mem_set.2 (Or.inl h)

lemma processEvents_attempt_not_mem {send : Int → String → Bool} {now lead : Int}
    {u : Int} {s : List String} {evs : List FormattedEvent} {x : String}
    (h : Action.sendOk u x ∈ (processEvents send now lead u s evs).2 ∨
         Action.sendFail u x ∈ (processEvents send now lead u s evs).2) : x ∉ s := by
  induction evs generalizing s with
  | nil => simp [processEvents] at h
  | cons e rest ih =>
    by_cases hc : dueAndNew now lead s e
    · by_cases hs : send u (event_id e)
      · simp only [processEvents, hc, hs, if_true] at h
        rcases h with h | h
        · rcases List.mem_cons.1 h with heq | h
          · injection heq with h1 h2
            rw [h2]
            exact (dueAndNew_eq_true.1 hc).2
          · intro hx
            exact ih (Or.inl h) (subset_setAdd hx)
        · rcases List.mem_cons.1 h with heq | h
          · simp at heq
          · intro hx
            exact ih (Or.inr h) (subset_setAdd hx)
      · simp only [processEvents, hc, if_true, hs, Bool.false_eq_true, if_false] at h
        rcases h with h | h
        · rcases List.mem_cons.1 h with heq | h
          · simp at heq
          · rcases List.mem_cons.1 h with heq | h
            · simp at heq
            · exact ih (Or.inl h)
        · rcases List.mem_cons.1 h with heq | h
          · injection heq with h1 h2
            rw [h2]
            exact (dueAndNew_eq_true.1 hc).2
          · rcases List.mem_cons.1 h with heq | h
            · simp at heq
            · exact ih (Or.inr h)
    · simp only [processEvents, hc, Bool.false_eq_true, if_false] at h
      exact ih h

lemma processEvents_sendOk_iff {send : Int → String → Bool} {now lead u : Int}
    {s : List String} {evs : List FormattedEvent} {x : String}
    (hids : (evs.map event_id).Nodup) :
    Action.sendOk u x ∈ (processEvents send now lead u s evs).2 ↔
      (∃ e ∈ evs, event_id e = x ∧ dueProp now lead e) ∧ x ∉ s ∧ send u x = true := by
  induction evs generalizing s with
  | nil => simp [processEvents]
  | cons e rest ih =>
    rw [List.map_cons, List.nodup_cons] at hids
    obtain ⟨hnotin, hrest⟩ := hids
    by_cases hc : dueAndNew now lead s e
    · obtain ⟨hdue, hnew⟩ := dueAndNew_eq_true.1 hc
      by_cases hs : send u (event_id e)
      · simp only [processEvents, hc, hs, if_true]
        rw [List.mem_cons, ih hrest]
        constructor
        · rintro (heq | ⟨⟨e2, he2, hid2, hdue2⟩, hmem, hsend⟩)
          · injection heq with h1 h2
            subst h2
            exact ⟨⟨e, List.mem_cons_self e rest, rfl, hdue⟩, hnew, hs⟩
          · refine ⟨⟨e2, List.mem_cons_of_mem e he2, hid2, hdue2⟩, ?_, hsend⟩
            intro hxs
            exact hmem (subset_setAdd hxs)
        · rintro ⟨⟨e2, he2, hid2, hdue2⟩, hmem, hsend⟩
          rcases List.mem_cons.1 he2 with rfl | he2'
          · exact Or.inl (by rw [hid2])
          · refine Or.inr ⟨⟨e2, he2', hid2, hdue2⟩, ?_, hsend⟩
            rw [mem_setAdd]
            rintro (hxe | hxs)
            · exact hnotin (by rw [← hxe, ← hid2]; exact List.mem_map.2 ⟨e2, he2', rfl⟩)
            · exact hmem hxs
      · simp only [processEvents, hc, if_true, hs, Bool.false_eq_true, if_false]
        rw [List.mem_cons, List.mem_cons, ih hrest]
        constructor
        · rintro (heq | heq | ⟨⟨e2, he2, hid2, hdue2⟩, hmem, hsend⟩)
          · simp at heq
          · simp at heq
          · exact ⟨⟨e2, List.mem_cons_of_mem e he2, hid2, hdue2⟩, hmem, hsend⟩
        · rintro ⟨⟨e2, he2, hid2, hdue2⟩, hmem, hsend⟩
          rcases List.mem_cons.1 he2 with rfl | he2'
          · rw [← hid2] at hsend
            exact absurd hsend hs
          · exact Or.inr (Or.inr ⟨⟨e2, he2', hid2, hdue2⟩, hmem, hsend⟩)
    · simp only [processEvents, hc, Bool.false_eq_true, if_false]
      rw [ih hrest]
      constructor
      · rintro ⟨⟨e2, he2, hid2, hdue2⟩, hmem, hsend⟩
        exact ⟨⟨e2, List.mem_cons_of_mem e he2, hid2, hdue2⟩, hmem, hsend⟩
      · rintro ⟨⟨e2, he2, hid2, hdue2⟩, hmem, hsend⟩
        rcases List.mem_cons.1 he2 with rfl | he2'
        · exfalso
          apply hc
          rw [dueAndNew_eq_true]
          refine ⟨hdue2, ?_⟩
          rw [hid2]
          exact hmem
        · exact ⟨⟨e2, he2', hid2, hdue2⟩, hmem, hsend⟩

lemma processEvents_sendFail_iff {send : Int → String → Bool} {now lead u : Int}
    {s : List String} {evs : List FormattedEvent} {x : String}
    (hids : (evs.map event_id).Nodup) :
    Action.sendFail u x ∈ (processEvents send now lead u s evs).2 ↔
      (∃ e ∈ evs, event_id e = x ∧ dueProp now lead e) ∧ x ∉ s ∧ send u x = false := by
  induction evs generalizing s with
  | nil => simp [processEvents]
  | cons e rest ih =>
    rw [List.map_cons, List.nodup_cons] at hids
    obtain ⟨hnotin, hrest⟩ := hids
    by_cases hc : dueAndNew now lead s e
    · obtain ⟨hdue, hnew⟩ := dueAndNew_eq_true.1 hc
      by_cases hs : send u (event_id e)
      · simp only [processEvents, hc, hs, if_true]
        rw [List.mem_cons, ih hrest]
        constructor
        · rintro (heq | ⟨⟨e2, he2, hid2, hdue2⟩, hmem, hsend⟩)
          · simp at heq
          · refine ⟨⟨e2, List.mem_cons_of_mem e he2, hid2, hdue2⟩, ?_, hsend⟩
            intro hxs
            exact hmem (subset_setAdd hxs)
        · rintro ⟨⟨e2, he2, hid2, hdue2⟩, hmem, hsend⟩
          rcases List.mem_cons.1 he2 with rfl | he2'
          · rw [hid2] at hs
            rw [hsend] at hs
            simp at hs
          · refine Or.inr ⟨⟨e2, he2', hid2, hdue2⟩, ?_, hsend⟩
            rw [mem_setAdd]
            rintro (hxe | hxs)
            · exact hnotin (by rw [← hxe, ← hid2]; exact List.mem_map.2 ⟨e2, he2', rfl⟩)
            · exact hmem hxs
      · simp only [processEvents, hc, if_true, hs, Bool.false_eq_true, if_false]
        rw [List.mem_cons, List.mem_cons, ih hrest]
        constructor
        · rintro (heq | heq | ⟨⟨e2, he2, hid2, hdue2⟩, hmem, hsend⟩)
          · injection heq with h1 h2
            subst h2
            exact ⟨⟨e, List.mem_cons_self e rest, rfl, hdue⟩, hnew,
              Bool.not_eq_true _ ▸ hs⟩
          · simp at heq
          · exact ⟨⟨e2, List.mem_cons_of_mem e he2, hid2, hdue2⟩, hmem, hsend⟩
        · rintro ⟨⟨e2, he2, hid2, hdue2⟩, hmem, hsend⟩
          rcases List.mem_cons.1 he2 with rfl | he2'
          · exact Or.inl (by rw [hid2])
          · exact Or.inr (Or.inr ⟨⟨e2, he2', hid2, hdue2⟩, hmem, hsend⟩)
    · simp only [processEvents, hc, Bool.false_eq_true, if_false]
      rw [ih hrest]
      constructor
      · rintro ⟨⟨e2, he2, hid2, hdue2⟩, hmem, hsend⟩
        exact ⟨⟨e2, List.mem_cons_of_mem e he2, hid2, hdue2⟩, hmem, hsend⟩
      · rintro ⟨⟨e2, he2, hid2, hdue2⟩, hmem, hsend⟩
        rcases List.mem_cons.1 he2 with rfl | he2'
        · exfalso
          apply hc
          rw [dueAndNew_eq_true]
          refine ⟨hdue2, ?_⟩
          rw [hid2]
          exact hmem
        · exact ⟨⟨e2, he2', hid2, hdue2⟩, hmem, hsend⟩

/-! Lemmas about the outer per-user loop. -/

lemma notifyAll_sendOk_user {send : Int → String → Bool} {now lead : Int}
    {events : List FormattedEvent} {users : List Int} {m : NotifMap}
    {v : Int} {x : String}
    (h : Action.sendOk v x ∈ (notifyAll send now lead events users m).2) :
    v ∈ users := by
  induction users generalizing m with
  | nil => simp [notifyAll] at h
  | cons u rest ih =>
    simp only [notifyAll] at h
    rcases List.mem_append.1 h with h | h
    · rw [processEvents_sendOk_user h]
      exact List.mem_cons_self u rest
    · exact List.mem_cons_of_mem u (ih h)

lemma notifyAll_sendFail_user {send : Int → String → Bool} {now lead : Int}
    {events : List FormattedEvent} {users : List Int} {m : NotifMap}
    {v : Int} {x : String}
    (h : Action.sendFail v x ∈ (notifyAll send now lead events users m).2) :
    v ∈ users := by
  induction users generalizing m with
  | nil => simp [notifyAll] at h
  | cons u rest ih =>
    simp only [notifyAll] at h
    rcases List.mem_append.1 h with h | h
    · rw [processEvents_sendFail_user h]
      exact List.mem_cons_self u rest
    · exact List.mem_cons_of_mem u (ih h)

lemma notifyAll_mem_set {send : Int → String → Bool} {now lead : Int}
    {events : List FormattedEvent} {users : List Int} {m : NotifMap}
    {u : Int} {eid : String} :
    eid ∈ notifSet (notifyAll send now lead events users m).1 u ↔
      eid ∈ notifSet m u ∨
        Action.sendOk u eid ∈ (notifyAll send now lead events users m).2 := by
  induction users generalizing m with
  | nil => simp [notifyAll]
  | cons u2 rest ih =>
    simp only [notifyAll]
    rw [ih]
    by_cases hu : u2 = u
    · subst hu
      rw [notifSet_step_self, processEvents_mem_set, notifSet_ensureKey_self,
        List.mem_append]
      tauto
    · have hno : Action.sendOk u eid ∉
          (processEvents send now lead u2 (notifSet (ensureKey m u2) u2) events).2 :=
        fun hmem => hu (processEvents_sendOk_user hmem).symm
      rw [notifSet_step_ne hu, List.mem_append]
      tauto

lemma notifyAll_attempt_not_mem {send : Int → String → Bool} {now lead : Int}
    {events : List FormattedEvent} {users : List Int} {m : NotifMap}
    {u : Int} {eid : String}
    (h : attempted (notifyAll send now lead events users m).2 u eid) :
    eid ∉ notifSet m u := by
  induction users generalizing m with
  | nil => simp [notifyAll, attempted] at h
  | cons u2 rest ih =>
    simp only [notifyAll, attempted] at h
    rcases h with h | h
    · rcases List.mem_append.1 h with h | h
      · have hu := processEvents_sendOk_user h
        subst hu
        have h3 := processEvents_attempt_not_mem (Or.inl h)
        rw [notifSet_ensureKey_self] at h3
        exact h3
      · have h4 := ih (Or.inl h)
        by_cases hu : u2 = u
        · subst hu
          rw [notifSet_step_self] at h4
          intro hx
          exact h4 (processEvents_set_mono (by rw [notifSet_ensureKey_self]; exact hx))
        · rw [notifSet_step_ne hu] at h4
          exact h4
    · rcases List.mem_append.1 h with h | h
      · have hu := processEvents_sendFail_user h
        subst hu
        have h3 := processEvents_attempt_not_mem (Or.inr h)
        rw [notifSet_ensureKey_self] at h3
        exact h3
      · have h4 := ih (Or.inr h)
        by_cases hu : u2 = u
        · subst hu
          rw [notifSet_step_self] at h4
          intro hx
          exact h4 (processEvents_set_mono (by rw [notifSet_ensureKey_self]; exact hx))
        · rw [notifSet_step_ne hu] at h4
          exact h4

lemma notifyAll_sendOk_iff {send : Int → String → Bool} {now lead : Int}
    {events : List FormattedEvent} {users : List Int} {m : NotifMap}
    {u : Int} {eid : String}
    (husers : users.Nodup) (hids : (events.map event_id).Nodup) :
    Action.sendOk u eid ∈ (notifyAll send now lead events users m).2 ↔
      u ∈ users ∧ (∃ e ∈ events, event_id e = eid ∧ dueProp now lead e) ∧
        eid ∉ notifSet m u ∧ send u eid = true := by
  induction users generalizing m with
  | nil => simp [notifyAll]
  | cons u2 rest ih =>
    rw [List.nodup_cons] at husers
    obtain ⟨hu2, hrest⟩ := husers
    simp only [notifyAll]
    rw [List.mem_append]
    by_cases hu : u2 = u
    · subst hu
      rw [processEvents_sendOk_iff hids, notifSet_ensureKey_self]
      constructor
      · rintro (⟨hex, hmem, hsend⟩ | h)
        · exact ⟨List.mem_cons_self _ _, hex, hmem, hsend⟩
        · exact absurd (notifyAll_sendOk_user h) hu2
      · rintro ⟨hmemu, hex, hmem, hsend⟩
        exact Or.inl ⟨hex, hmem, hsend⟩
    · rw [ih hrest, notifSet_step_ne hu]
      constructor
      · rintro (h | ⟨hmemu, hex, hmem, hsend⟩)
        · exact absurd (processEvents_sendOk_user h).symm hu
        · exact ⟨List.mem_cons_of_mem _ hmemu, hex, hmem, hsend⟩
      · rintro ⟨hmemu, hex, hmem, hsend⟩
        rcases List.mem_cons.1 hmemu with rfl | hmemu'
        · exact absurd rfl hu
        · exact Or.inr ⟨hmemu', hex, hmem, hsend⟩

lemma notifyAll_sendFail_iff {send : Int → String → Bool} {now lead : Int}
    {events : List FormattedEvent} {users : List Int} {m : NotifMap}
    {u : Int} {eid : String}
    (husers : users.Nodup) (hids : (events.map event_id).Nodup) :
    Action.sendFail u eid ∈ (notifyAll send now lead events users m).2 ↔
      u ∈ users ∧ (∃ e ∈ events, event_id e = eid ∧ dueProp now lead e) ∧
        eid ∉ notifSet m u ∧ send u eid = false := by
  induction users generalizing m with
  | nil => simp [notifyAll]
  | cons u2 rest ih =>
    rw [List.nodup_cons] at husers
    obtain ⟨hu2, hrest⟩ := husers
    simp only [notifyAll]
    rw [List.mem_append]
    by_cases hu : u2 = u
    · subst hu
      rw [processEvents_sendFail_iff hids, notifSet_ensureKey_self]
      constructor
      · rintro (⟨hex, hmem, hsend⟩ | h)
        · exact ⟨List.mem_cons_self _ _, hex, hmem, hsend⟩
        · exact absurd (notifyAll_sendFail_user h) hu2
      · rintro ⟨hmemu, hex, hmem, hsend⟩
        exact Or.inl ⟨hex, hmem, hsend⟩
    · rw [ih hrest, notifSet_step_ne hu]
      constructor
      · rintro (h | ⟨hmemu, hex, hmem, hsend⟩)
        · exact absurd (processEvents_sendFail_user h).symm hu
        · exact ⟨List.mem_cons_of_mem _ hmemu, hex, hmem, hsend⟩
      · rintro ⟨hmemu, hex, hmem, hsend⟩
        rcases List.mem_cons.1 hmemu with rfl | hmemu'
        · exact absurd rfl hu
        · exact Or.inr ⟨hmemu', hex, hmem, hsend⟩

lemma notifyAll_attempted_iff {send : Int → String → Bool} {now lead : Int}
    {events : List FormattedEvent} {users : List Int} {m : NotifMap}
    {u : Int} {eid : String}
    (husers : users.Nodup) (hids : (events.map event_id).Nodup) :
    attempted (notifyAll send now lead events users m).2 u eid ↔
      u ∈ users ∧ (∃ e ∈ events, event_id e = eid ∧ dueProp now lead e) ∧
        eid ∉ notifSet m u := by
  unfold attempted
  rw [notifyAll_sendOk_iff husers hids, notifyAll_sendFail_iff husers hids]
  cases hsend : send u eid
  · simp [hsend]
  · simp [hsend]

/-! Trace-shape lemmas: every failing send is followed by the backoff sleep. -/

lemma lastNotFail_cons {a : Action} {t : List Action} (ht : t ≠ []) :
    lastNotFail (a :: t) = lastNotFail t := by
  cases t with
  | nil => exact absurd rfl ht
  | cons b t2 => rfl

lemma lastNotFail_cons_of {a : Action} {t : List Action} (ha : isFail a = false)
    (ht : lastNotFail t = true) : lastNotFail (a :: t) = true := by
  cases t with
  | nil => simp [lastNotFail, ha]
  | cons b t2 => rwa [lastNotFail_cons (by simp)]

lemma failsBackoff_cons {a : Action} {t : List Action} :
    failsBackoff (a :: t) = ((!(isFail a) || startsWithSleep1 t) && failsBackoff t) := rfl

lemma startsWithSleep1_append_cons {b : Action} {t t2 : List Action} :
    startsWithSleep1 ((b :: t) ++ t2) = startsWithSleep1 (b :: t) := by
  cases b <;> rfl

lemma failsBackoff_append {t1 t2 : List Action} (h1 : failsBackoff t1 = true)
    (hl : lastNotFail t1 = true) (h2 : failsBackoff t2 = true) :
    failsBackoff (t1 ++ t2) = true := by
  induction t1 with
  | nil => simpa using h2
  | cons a t ih =>
    rw [failsBackoff_cons, Bool.and_eq_true] at h1
    obtain ⟨ha, ht⟩ := h1
    cases t with
    | nil =>
      have ha2 : (!(isFail a)) = true := hl
      rw [List.cons_append, List.nil_append, failsBackoff_cons, Bool.and_eq_true]
      refine ⟨?_, h2⟩
      rw [ha2]
      rfl
    | cons b t3 =>
      have hl2 : lastNotFail (b :: t3) = true := by
        rwa [lastNotFail_cons (by simp)] at hl
      rw [List.cons_append, failsBackoff_cons, Bool.and_eq_true]
      constructor
      · rw [startsWithSleep1_append_cons]
        exact ha
      · exact ih ht hl2

lemma lastNotFail_append {t1 t2 : List Action} (h1 : lastNotFail t1 = true)
    (h2 : lastNotFail t2 = true) : lastNotFail (t1 ++ t2) = true := by
  cases t2 with
  | nil => simpa using h1
  | cons c t3 =>
    induction t1 with
    | nil => simpa using h2
    | cons a t ih =>
      rw [List.cons_append, lastNotFail_cons (by simp)]
      refine ih ?_
      cases t with
      | nil => rfl
      | cons d t4 => rwa [lastNotFail_cons (by simp)] at h1

lemma processEvents_trace_shape {send : Int → String → Bool} {now lead u : Int}
    {s : List String} {evs : List FormattedEvent} :
    failsBackoff (processEvents send now lead u s evs).2 = true ∧
      lastNotFail (processEvents send now lead u s evs).2 = true := by
  induction evs generalizing s with
  | nil => exact ⟨rfl, rfl⟩
  | cons e rest ih =>
    by_cases hc : dueAndNew now lead s e
    · by_cases hs : send u (event_id e)
      · simp only [processEvents, hc, hs, if_true]
        obtain ⟨ih1, ih2⟩ := @ih (setAdd s (event_id e))
        constructor
        · rw [failsBackoff_cons, Bool.and_eq_true]
          exact ⟨rfl, ih1⟩
        · exact lastNotFail_cons_of rfl ih2
      · simp only [processEvents, hc, if_true, hs, Bool.false_eq_true, if_false]
        obtain ⟨ih1, ih2⟩ := @ih s
        constructor
        · rw [failsBackoff_cons, Bool.and_eq_true]
          refine ⟨rfl, ?_⟩
          rw [failsBackoff_cons, Bool.and_eq_true]
          exact ⟨rfl, ih1⟩
        · rw [lastNotFail_cons (by simp)]
          exact lastNotFail_cons_of rfl ih2
    · simp only [processEvents, hc, Bool.false_eq_true, if_false]
      exact ih

lemma notifyAll_trace_shape {send : Int → String → Bool} {now lead : Int}
    {events : List FormattedEvent} {users : List Int} {m : NotifMap} :
    failsBackoff (notifyAll send now lead events users m).2 = true ∧
      lastNotFail (notifyAll send now lead events users m).2 = true := by
  induction users generalizing m with
  | nil => exact ⟨rfl, rfl⟩
  | cons u rest ih =>
    simp only [notifyAll]
    obtain ⟨p1, p2⟩ :=
      @processEvents_trace_shape send now lead u (notifSet (ensureKey m u) u) events
    obtain ⟨q1, q2⟩ := @ih (setKey (ensureKey m u) u
      (processEvents send now lead u (notifSet (ensureKey m u) u) events).1)
    exact ⟨failsBackoff_append p1 p2 q1, lastNotFail_append p2 q2⟩

/-! Lemmas about the prune step and the tick trace. -/

lemma lookupSet_prune {now : Int} {m : NotifMap} {u : Int} :
    lookupSet (prune now m) u =
      (lookupSet m u).map (pruneSet (dateStr (now - 86400))) := by
  induction m with
  | nil => rfl
  | cons p rest ih =>
    simp only [prune, List.map_cons] at ih ⊢
    by_cases hp : p.1 = u
    · simp [lookupSet, hp]
    · simp only [lookupSet, hp, if_false]
      exact ih

lemma mem_pruneSet {cutoff : String} {s : List String} {eid : String} :
    eid ∈ pruneSet cutoff s ↔
      eid ∈ s ∧ strStartsWith (dateField eid) cutoff = false := by
  unfold pruneSet
  rw [List.mem_filter]
  simp

lemma attempted_append_sleep {tr : List Action} {n : Nat} {u : Int} {eid : String} :
    attempted (tr ++ [Action.sleep n]) u eid ↔ attempted tr u eid := by
  unfold attempted
  simp [List.mem_append]

/-! The claims. -/

/-- Claim C1: in a tick whose calendar fetch succeeded, delivery is
attempted for a (subscribed recipient, occurrence) pair exactly when the
occurrence lies in the fetch window [now, now + 1 hour), its start is
within [0, lead] minutes of now, and its identity is not already recorded
as notified for that recipient; stated for duplicate-free subscriber
lists and occurrence-identity lists, which is how the bot stores them
(unique user_id column, identity = summary plus start).  The concrete
four-occurrence instance of the claim is the witness theorem. -/
theorem C1_eligibility (send : Int → String → Bool) (now lead : Int)
    (users : List Int) (cal : List VEvent) (m : NotifMap) (u : Int) (eid : String)
    (husers : users.Nodup)
    (hids : ((get_events (some cal) now (now + 3600)).map event_id).Nodup) :
    attempted (tick send now lead users (FetchResult.ok cal) m).2 u eid ↔
      u ∈ users ∧
        (∃ v ∈ cal, (now ≤ v.dtstart ∧ v.dtstart < now + 3600) ∧
          0 ≤ v.dtstart - now ∧ v.dtstart - now ≤ 60 * lead ∧
          event_id (formatEvent v) = eid) ∧
        eid ∉ notifSet m u := by
  show attempted ((notifyAll send now lead (get_events (some cal) now (now + 3600))
      users m).2 ++ [Action.sleep CHECK_INTERVAL]) u eid ↔ _
  rw [attempted_append_sleep, notifyAll_attempted_iff husers hids]
  constructor
  · rintro ⟨hmemu, ⟨e, he, hid, hdue⟩, hnot⟩
    obtain ⟨v, hv, hw, rfl⟩ := mem_get_events.1 he
    exact ⟨hmemu, ⟨v, hv, hw, hdue.1, hdue.2, hid⟩, hnot⟩
  · rintro ⟨hmemu, ⟨v, hv, hw, h1, h2, hid⟩, hnot⟩
    exact ⟨hmemu, ⟨formatEvent v, mem_get_events.2 ⟨v, hv, hw, rfl⟩, hid, h1, h2⟩, hnot⟩

/-- Witness for C1: at the concrete four-occurrence calendar with lead 15
minutes, the occurrence 5 minutes after now is attempted and, as the
final trace equality shows, it is the only one (10 minutes before is
out of the window, 20 minutes after exceeds the lead, 90 minutes after is
outside the fetch hour). -/
theorem C1_eligibility_witness :
    ([1] : List Int).Nodup ∧
    ((get_events (some calEx) t0 (t0 + 3600)).map event_id).Nodup ∧
    (attempted (tick sendAll t0 15 [1] (FetchResult.ok calEx) []).2 1 idB ↔
      1 ∈ ([1] : List Int) ∧
        (∃ v ∈ calEx, (t0 ≤ v.dtstart ∧ v.dtstart < t0 + 3600) ∧
          0 ≤ v.dtstart - t0 ∧ v.dtstart - t0 ≤ 60 * 15 ∧
          event_id (formatEvent v) = idB) ∧
        idB ∉ notifSet [] 1) ∧
    (tick sendAll t0 15 [1] (FetchResult.ok calEx) []).2 =
      [Action.sendOk 1 idB, Action.sleep CHECK_INTERVAL] :=
  ⟨by decide, by decide,
    C1_eligibility sendAll t0 15 [1] calEx [] 1 idB (by decide) (by decide),
    by decide⟩

/-- Claim C2: after the delivery loops of a tick, an id is recorded for a
recipient exactly when it was recorded before the tick or its send
returned normally during the tick — so a pair whose send raised is not
recorded and stays eligible for a later tick — and every failing send in
the trace is immediately followed by the one-second backoff sleep before
the loop continues. -/
theorem C2_record_on_success (send : Int → String → Bool) (now lead : Int)
    (events : List FormattedEvent) (users : List Int) (m : NotifMap) :
    (∀ u eid, eid ∈ notifSet (notifyAll send now lead events users m).1 u ↔
        eid ∈ notifSet m u ∨
          Action.sendOk u eid ∈ (notifyAll send now lead events users m).2) ∧
    failsBackoff (notifyAll send now lead events users m).2 = true :=
  ⟨fun _ _ => notifyAll_mem_set, notifyAll_trace_shape.1⟩

/-- Claim C4: on a tick with no configured calendar or with a failed
fetch, the whole dedup map — all entries of all recipients — is cleared
and the tick only sleeps. -/
theorem C4_failsafe_clear (send : Int → String → Bool) (now lead : Int)
    (users : List Int) (m : NotifMap) (fr : FetchResult)
    (h : fr = FetchResult.noCalendar ∨ fr = FetchResult.fetchFailed) :
    tick send now lead users fr m = ([], [Action.sleep CHECK_INTERVAL]) := by
  rcases h with rfl | rfl
  · rfl
  · rfl

/-- Witness for C4: a populated dedup map is wiped by a no-calendar tick. -/
theorem C4_failsafe_clear_witness :
    (FetchResult.noCalendar = FetchResult.noCalendar ∨
      FetchResult.noCalendar = FetchResult.fetchFailed) ∧
    tick sendAll t0 15 [1] FetchResult.noCalendar [(1, [idB]), (2, [idB])] =
      ([], [Action.sleep CHECK_INTERVAL]) :=
  ⟨Or.inl rfl, C4_failsafe_clear sendAll t0 15 [1] [(1, [idB]), (2, [idB])]
    FetchResult.noCalendar (Or.inl rfl)⟩

/-- Claim C3 fails on the code: the prune step removes exactly the ids
whose date field equals the calendar date of now minus one day, not the
ids older than 24 hours.  At now = 2024-01-10 12:00:00 an entry dated
2024-01-07 12:00:00 — 72 hours old — survives the prune, while at
now = 2024-01-08 00:30:00 an entry dated 2024-01-07 23:50:00 — only 40
minutes old — is removed. -/
theorem C3_prune_not_24h :
    prune 1704888000 [(1, ["Meeting_2024-01-07T12:00:00"])] =
      [(1, ["Meeting_2024-01-07T12:00:00"])] ∧
    (1704888000 : Int) - 1704628800 = 3 * 86400 ∧
    isoformat 1704628800 = "2024-01-07T12:00:00" ∧
    isoformat 1704888000 = "2024-01-10T12:00:00" ∧
    prune 1704673800 [(1, ["Party_2024-01-07T23:50:00"])] = [(1, [])] ∧
    (1704673800 : Int) - 1704671400 = 2400 ∧
    isoformat 1704671400 = "2024-01-07T23:50:00" ∧
    isoformat 1704673800 = "2024-01-08T00:30:00" := by
  decide

/-- Claim C5: marking a (recipient, identity) pair twice then querying
has gives the same result as marking once (both true), and a pair already
recorded is never attempted again by a later delivery loop while the
record persists. -/
theorem C5_mark_idempotent :
    (∀ (m : NotifMap) (u : Int) (eid : String),
      has (mark (mark m u eid) u eid) u eid = has (mark m u eid) u eid ∧
        has (mark m u eid) u eid = true) ∧
    (∀ (send : Int → String → Bool) (now lead : Int)
        (events : List FormattedEvent) (users : List Int) (m : NotifMap)
        (u : Int) (eid : String), has m u eid = true →
      ¬ attempted (notifyAll send now lead events users m).2 u eid) := by
  constructor
  · intro m u eid
    have hmark : ∀ m2 : NotifMap, has (mark m2 u eid) u eid = true := by
      intro m2
      simp only [has, mark, decide_eq_true_eq]
      rw [notifSet_step_self]
      exact mem_setAdd.2 (Or.inl rfl)
    exact ⟨by rw [hmark, hmark], hmark m⟩
  · intro send now lead events users m u eid hhas hatt
    exact notifyAll_attempt_not_mem hatt (by simpa [has] using hhas)

/-- Witness for C5: with idB marked for recipient 1, the delivery loop of
a tick in which the idB occurrence is due attempts nothing for that pair. -/
theorem C5_mark_idempotent_witness :
    has [(1, [idB])] 1 idB = true ∧
    ¬ attempted (notifyAll sendAll t0 15
      (get_events (some calEx) t0 (t0 + 3600)) [1] [(1, [idB])]).2 1 idB :=
  ⟨by decide, C5_mark_idempotent.2 sendAll t0 15
    (get_events (some calEx) t0 (t0 + 3600)) [1] [(1, [idB])] 1 idB (by decide)⟩

/-- Claim C6: within one tick's delivery loops, an eligible recipient b
whose own send returns normally receives its reminder no matter how the
sends to the other recipients behave — in particular a raising send for
recipient a does not block recipient b in the same tick (the witness
instantiates this with a send oracle that raises for recipient 1). -/
theorem C6_failure_isolated (send : Int → String → Bool) (now lead : Int)
    (events : List FormattedEvent) (users : List Int) (m : NotifMap)
    (b : Int) (e : FormattedEvent)
    (husers : users.Nodup) (hids : (events.map event_id).Nodup)
    (hb : b ∈ users) (he : e ∈ events) (hdue : dueProp now lead e)
    (hnew : event_id e ∉ notifSet m b) (hsend : send b (event_id e) = true) :
    Action.sendOk b (event_id e) ∈ (notifyAll send now lead events users m).2 :=
  (notifyAll_sendOk_iff husers hids).2 ⟨hb, ⟨e, he, rfl, hdue⟩, hnew, hsend⟩

/-- Witness for C6: recipient 1's send raises, yet recipient 2's reminder
for the due occurrence is delivered in the same tick. -/
theorem C6_failure_isolated_witness :
    ([1, 2] : List Int).Nodup ∧
    Action.sendFail 1 idB ∈ (notifyAll sendNotTo1 t0 15
      (get_events (some calEx) t0 (t0 + 3600)) [1, 2] []).2 ∧
    Action.sendOk 2 (event_id (formatEvent ⟨t0 + 300, some "B", none, none⟩)) ∈
      (notifyAll sendNotTo1 t0 15
        (get_events (some calEx) t0 (t0 + 3600)) [1, 2] []).2 :=
  ⟨by decide, by decide,
    C6_failure_isolated sendNotTo1 t0 15 (get_events (some calEx) t0 (t0 + 3600))
      [1, 2] [] 2 (formatEvent ⟨t0 + 300, some "B", none, none⟩)
      (by decide) (by decide) (by decide) (by decide) (by decide) (by decide) (by decide)⟩

/-- Claim C7: the scheduler loop never stops because of a per-tick
exception: for every outcome of the body — normal or any raised
fetch/parse/delivery/other error — the uncancelled loop proceeds to the
CHECK_INTERVAL sleep and a next pass (raised outcomes additionally
logged); only the external cancellation stops the task. -/
theorem C7_loop_survives :
    (∀ o : TickOutcome, (loopStep false o).1 ≠ StepResult.stopped) ∧
    (∀ (e : TickError) (m : NotifMap),
      loopStep false (TickOutcome.raised e m) =
        (StepResult.next m CHECK_INTERVAL, true)) ∧
    (∀ m : NotifMap, loopStep false (TickOutcome.normal m) =
      (StepResult.next m CHECK_INTERVAL, false)) ∧
    (∀ o : TickOutcome, loopStep true o = (StepResult.stopped, false)) := by
  refine ⟨?_, fun _ _ => rfl, fun _ => rfl, fun o => rfl⟩
  intro o
  cases o with
  | normal m => simp [loopStep]
  | raised e m => simp [loopStep]

/-- Claim C8 as stated fails on the code: the fixed placeholders that
get_events substitutes for missing fields are the Russian strings for
Untitled, No description and No location, not those English strings
themselves; moreover a present-but-empty summary passes through
unchanged, so an occurrence can still carry an empty summary. -/
theorem C8_placeholders_counterexample :
    (get_events (some [⟨t0, none, none, none⟩]) t0 (t0 + 3600)).map
        (fun e => (e.summary, e.description, e.location)) =
      [("Без названия", "Без описания", "Без места")] ∧
    ("Без названия" : String) ≠ "Untitled" ∧
    ("Без описания" : String) ≠ "No description" ∧
    ("Без места" : String) ≠ "No location" ∧
    (get_events (some [⟨t0, some "", none, none⟩]) t0 (t0 + 3600)).map
        (fun e => e.summary) = [""] := by
  decide

/-- Claim C8 amended: a missing summary, description or location field is
replaced by the fixed nonempty placeholder strings Без названия,
Без описания and Без места respectively (the Russian for Untitled, No
description, No location), so a missing field never yields an empty value
in the occurrence; an empty occurrence summary can only come from a field
that was present and empty. -/
theorem C8_placeholders (v : VEvent) :
    (v.summary = none → (formatEvent v).summary = "Без названия") ∧
    (v.description = none → (formatEvent v).description = "Без описания") ∧
    (v.location = none → (formatEvent v).location = "Без места") ∧
    ("Без названия" : String) ≠ "" ∧
    ("Без описания" : String) ≠ "" ∧
    ("Без места" : String) ≠ "" ∧
    ((formatEvent v).summary = "" → v.summary = some "") := by
  refine ⟨?_, ?_, ?_, by decide, by decide, by decide, ?_⟩
  · intro h
    simp [formatEvent, h]
  · intro h
    simp [formatEvent, h]
  · intro h
    simp [formatEvent, h]
  · intro h
    cases hs : v.summary with
    | none => simp [formatEvent, hs] at h
    | some s =>
      simp [formatEvent, hs] at h
      rw [h]

/-- Witness for C8 amended: an occurrence with all three fields missing
carries the three placeholders. -/
theorem C8_placeholders_witness :
    (formatEvent ⟨t0, none, none, none⟩).summary = "Без названия" ∧
    (formatEvent ⟨t0, none, none, none⟩).description = "Без описания" ∧
    (formatEvent ⟨t0, none, none, none⟩).location = "Без места" :=
  ⟨(C8_placeholders ⟨t0, none, none, none⟩).1 rfl,
    (C8_placeholders ⟨t0, none, none, none⟩).2.1 rfl,
    (C8_placeholders ⟨t0, none, none, none⟩).2.2.1 rfl⟩

/-- Claim C9: the prune step never removes a recipient key — a user with
an entry before the prune still has one after — and membership of every
id whose extracted date field does not start with the cutoff date of now
minus one day is unchanged. -/
theorem C9_prune_frame (now : Int) (m : NotifMap) :
    (∀ u, (lookupSet (prune now m) u).isSome = (lookupSet m u).isSome) ∧
    (∀ u eid, strStartsWith (dateField eid) (dateStr (now - 86400)) = false →
      (eid ∈ notifSet (prune now m) u ↔ eid ∈ notifSet m u)) := by
  constructor
  · intro u
    rw [lookupSet_prune]
    cases lookupSet m u with
    | none => rfl
    | some s => rfl
  · intro u eid hm
    unfold notifSet
    rw [lookupSet_prune]
    cases hl : lookupSet m u with
    | none => simp
    | some s => simp [mem_pruneSet, hm]

/-- Witness for C9: an entry dated three days before the cutoff is
untouched by the prune (this is the same behaviour C3 flags as a bug —
the id here is kept because its date is not exactly the cutoff date). -/
theorem C9_prune_frame_witness :
    strStartsWith (dateField "X_2024-01-05T09:00:00")
      (dateStr (1704888000 - 86400)) = false ∧
    ("X_2024-01-05T09:00:00" ∈
        notifSet (prune 1704888000 [(7, ["X_2024-01-05T09:00:00"])]) 7 ↔
      "X_2024-01-05T09:00:00" ∈ notifSet [(7, ["X_2024-01-05T09:00:00"])] 7) :=
  ⟨by decide, (C9_prune_frame 1704888000 [(7, ["X_2024-01-05T09:00:00"])]).2 7
    "X_2024-01-05T09:00:00" (by decide)⟩

/-- Claim C10: occurrence expansion of an absent calendar returns the
empty list for every window, instead of raising. -/
theorem C10_no_calendar (start_date end_date : Int) :
    get_events none start_date end_date = [] := rfl

end ICalBot
